import Mathlib

/-!
# Verification of the Q-recsys hybrid recommender (`qrecsys.py`)

Shallow embedding of the retrieval core of `qrecsys.py`:

* vectors are rows of integers (`List ℤ`); `euclidean_distances` is modelled by
  the squared Euclidean distance `sqDist`, which induces exactly the same
  ordering as the true Euclidean distance (the square root is monotone), so
  every ordering/sortedness statement about L2 distance transfers verbatim;
* `np.argsort` on one row of distances is modelled as a sort of the index list
  `range n` by distance.  numpy's default `kind='quicksort'` is deterministic
  but its tie order is not part of numpy's contract; the model uses a stable
  sort (ties by ascending index).  All theorems below except the tie-break
  claim are independent of the tie order;
* `np.setdiff1d(ar1, ar2, assume_unique=True)` keeps the elements of `ar1`
  not occurring in `ar2`, in `ar1`'s order (numpy does not sort or
  deduplicate `ar1` when `assume_unique=True`);
* the query encoder is external (`tensorflow_hub`); `recommend` is modelled
  from the encoded query vector onward;
* the `DataFrame` column checks of `preprocess` are modelled on the list of
  column names of the loaded tables.
-/

namespace QRecsys

/-- Squared Euclidean distance between two rows, componentwise over `ℤ`.
`euclidean_distances` in the source computes `√(sqDist)`; since `√` is
monotone, comparisons of true Euclidean distances coincide with comparisons
of `sqDist` values. -/
def sqDist (x y : List ℤ) : ℤ :=
  (List.zipWith (fun a b => (a - b) ^ 2) x y).sum

/-- `np.argsort` on a single row of keys: the indices `0, …, n-1` sorted by
non-decreasing key.  Ties are broken by ascending index (stable model; see
the module docstring on numpy's unspecified quicksort tie order). -/
def argsort (keys : List ℤ) : List ℕ :=
  List.insertionSort (fun i j => keys.getD i 0 ≤ keys.getD j 0)
    (List.range keys.length)

/-- `sklearn.metrics.pairwise.euclidean_distances`, up to the monotone
squaring: the matrix of squared distances between the rows of `x` and the
rows of `y`. -/
def euclidean_distances (x y : List (List ℤ)) : List (List ℤ) :=
  x.map (fun xr => y.map (fun yr => sqDist xr yr))

/-- `Recommender._find_nearest` (lines 156–159):
`dists = euclidean_distances(x, y)`; `sorted_items = np.argsort(dists)[::-1]`
(`argsort` acts row-wise along the last axis, `[::-1]` reverses the outer,
row, axis); `return sorted_items[0][:K]`. -/
def find_nearest (x y : List (List ℤ)) (K : ℕ) : List ℕ :=
  let dists := euclidean_distances x y
  let sorted_items := (dists.map argsort).reverse
  (sorted_items.headD []).take K

/-- `np.setdiff1d(ar1, ar2, assume_unique=True)`: the elements of `ar1` not
occurring in `ar2`, in `ar1`'s relative order. -/
def setdiff1d (ar1 ar2 : List ℕ) : List ℕ :=
  ar1.filter (fun a => decide (a ∉ ar2))

/-- The retrieval-time state of `Recommender.__init__`: the two embedding
matrices, the catalog titles (indexed by item id), and the set of item ids
with at least one interaction. -/
structure Recommender where
  embeds_mf : List (List ℤ)
  embeds_use : List (List ℤ)
  items : List String
  interacted_items : List ℕ

/-- Steps 1–3 of `Recommender.recommend` (lines 125–135): semantic nearest
neighbours with `K = K_use * use_buffer_multiplier`, filter to interacted
items, truncate to the first `K_use` — the seed set. -/
def Recommender.seed_ids (r : Recommender) (encoded_query : List ℤ)
    (K_use use_buffer_multiplier : ℕ) : List ℕ :=
  let item_ids := find_nearest [encoded_query] r.embeds_use
    (K_use * use_buffer_multiplier)
  let filtered := item_ids.filter (fun item_id =>
    decide (item_id ∈ r.interacted_items))
  filtered.take K_use

/-- The body of the per-seed loop of `Recommender.recommend`
(lines 139–145): nearest collaborative neighbours of the seed's own
embedding row, order-preserving set-difference against the accumulator,
first `K_mf` appended. -/
def Recommender.recommend_step (r : Recommender)
    (K_mf mf_buffer_multiplier : ℕ) (recs : List ℕ) (item_id : ℕ) : List ℕ :=
  let mf_items := find_nearest [r.embeds_mf.getD item_id []] r.embeds_mf
    (K_mf * mf_buffer_multiplier)
  recs ++ (setdiff1d mf_items recs).take K_mf

/-- `Recommender.recommend` up to title resolution: the accumulator after
the per-seed loop, truncated to `n_to_recommend` (lines 138–148). -/
def Recommender.recommend_ids (r : Recommender) (encoded_query : List ℤ)
    (K_use K_mf n_to_recommend use_buffer_multiplier mf_buffer_multiplier : ℕ) :
    List ℕ :=
  ((r.seed_ids encoded_query K_use use_buffer_multiplier).foldl
    (r.recommend_step K_mf mf_buffer_multiplier) []).take n_to_recommend

/-- `Recommender.recommend` (lines 93–153), from the encoded query onward:
the truncated accumulator resolved to titles (line 151). -/
def Recommender.recommend (r : Recommender) (encoded_query : List ℤ)
    (K_use K_mf n_to_recommend use_buffer_multiplier mf_buffer_multiplier : ℕ) :
    List String :=
  (r.recommend_ids encoded_query K_use K_mf n_to_recommend
    use_buffer_multiplier mf_buffer_multiplier).map
    (fun idx => r.items.getD idx "")

/-- The interactions-table schema check of `preprocess` (lines 45–48), on
the list of column names of the loaded table: it raises `ColumnNotFoundError`
exactly when `set(df_intxn.columns) - set(["interaction", "item", "user"])`
is non-empty. -/
def interactions_schema_check (cols : List String) : Except String Unit :=
  if cols.filter (fun c => decide (c ∉ ["interaction", "item", "user"])) = []
  then Except.ok ()
  else Except.error "ColumnNotFoundError"

/-- The items-table schema check of `preprocess` (lines 49–50): raises
`ColumnNotFoundError` exactly when `"title"` is absent. -/
def items_schema_check (cols : List String) : Except String Unit :=
  if "title" ∈ cols then Except.ok ()
  else Except.error "ColumnNotFoundError"

/-! ## Basic lemmas about the embedded operations -/

lemma sqDist_nonneg (x y : List ℤ) : 0 ≤ sqDist x y := by
  induction x generalizing y with
  | nil => simp [sqDist]
  | cons a x ih =>
    cases y with
    | nil => simp [sqDist]
    | cons b y =>
      have := ih y
      simp only [sqDist, List.zipWith_cons_cons, List.sum_cons] at *
      exact add_nonneg (sq_nonneg _) this

lemma sqDist_self (x : List ℤ) : sqDist x x = 0 := by
  induction x with
  | nil => simp [sqDist]
  | cons a x ih =>
    simp only [sqDist, List.zipWith_cons_cons, List.sum_cons] at *
    simp [ih]

lemma argsort_perm (keys : List ℤ) : (argsort keys).Perm (List.range keys.length) :=
  List.perm_insertionSort _ _

lemma argsort_sorted (keys : List ℤ) :
    List.Sorted (fun i j => keys.getD i 0 ≤ keys.getD j 0) (argsort keys) := by
  haveI : IsTotal ℕ (fun i j => keys.getD i 0 ≤ keys.getD j 0) :=
    ⟨fun a b => le_total _ _⟩
  haveI : IsTrans ℕ (fun i j => keys.getD i 0 ≤ keys.getD j 0) :=
    ⟨fun a b c hab hbc => le_trans hab hbc⟩
  exact List.sorted_insertionSort _ _

lemma argsort_nodup (keys : List ℤ) : (argsort keys).Nodup :=
  (argsort_perm keys).nodup_iff.mpr (List.nodup_range _)

lemma argsort_length (keys : List ℤ) : (argsort keys).length = keys.length := by
  simpa using (argsort_perm keys).length_eq

lemma mem_argsort_lt {keys : List ℤ} {i : ℕ} (h : i ∈ argsort keys) :
    i < keys.length :=
  List.mem_range.mp ((argsort_perm keys).mem_iff.mp h)

lemma mem_argsort_of_lt {keys : List ℤ} {i : ℕ} (h : i < keys.length) :
    i ∈ argsort keys :=
  (argsort_perm keys).mem_iff.mpr (List.mem_range.mpr h)

/-- For a single-row query, `_find_nearest` is the argsort of the distances
of the query to the rows of `y`, truncated to `K` (the outer `[::-1]`
reversal is the identity on a one-row matrix). -/
lemma find_nearest_single (q : List ℤ) (y : List (List ℤ)) (K : ℕ) :
    find_nearest [q] y K = (argsort (y.map (fun yr => sqDist q yr))).take K := by
  simp [find_nearest, euclidean_distances]

lemma mem_setdiff1d {ar1 ar2 : List ℕ} {a : ℕ} :
    a ∈ setdiff1d ar1 ar2 ↔ a ∈ ar1 ∧ a ∉ ar2 := by
  simp [setdiff1d]

lemma setdiff1d_sublist (ar1 ar2 : List ℕ) : (setdiff1d ar1 ar2).Sublist ar1 :=
  List.filter_sublist _

lemma setdiff1d_nodup {ar1 : List ℕ} (h : ar1.Nodup) (ar2 : List ℕ) :
    (setdiff1d ar1 ar2).Nodup :=
  h.filter _

set_option linter.unusedVariables false

lemma find_nearest_nodup (q : List ℤ) (y : List (List ℤ)) (K : ℕ) :
    (find_nearest [q] y K).Nodup := by
  rw [find_nearest_single]
  exact (argsort_nodup _).sublist (List.take_sublist _ _)

lemma recommend_step_nodup (r : Recommender) (K_mf mbm : ℕ) {recs : List ℕ}
    (h : recs.Nodup) (item_id : ℕ) :
    (r.recommend_step K_mf mbm recs item_id).Nodup := by
  unfold Recommender.recommend_step
  refine List.Nodup.append h ?_ ?_
  · exact ((setdiff1d_nodup (find_nearest_nodup _ _ _) recs).sublist
      (List.take_sublist _ _))
  · intro a ha ha'
    have : a ∈ setdiff1d _ recs := (List.take_sublist _ _).subset ha'
    exact (mem_setdiff1d.mp this).2 ha

lemma foldl_recommend_step_nodup (r : Recommender) (K_mf mbm : ℕ) :
    ∀ (seeds recs : List ℕ), recs.Nodup →
      (seeds.foldl (r.recommend_step K_mf mbm) recs).Nodup
  | [], _, h => h
  | s :: seeds, recs, h =>
    foldl_recommend_step_nodup r K_mf mbm seeds _
      (recommend_step_nodup r K_mf mbm h s)

/-! ## Claim theorems -/

/-- C1: for every query and every valid configuration, the list returned by
`Recommender.recommend` has length at most `n_to_recommend`. -/
theorem recommend_length_le (r : Recommender) (q : List ℤ)
    (K_use K_mf n_to_recommend ubm mbm : ℕ) :
    (r.recommend q K_use K_mf n_to_recommend ubm mbm).length ≤ n_to_recommend := by
  simp only [Recommender.recommend, Recommender.recommend_ids, List.length_map,
    List.length_take]
  exact min_le_left _ _

/-- C2: the sequence returned by `Recommender.recommend` carries no duplicate
underlying item identifiers: the id sequence it resolves to titles has no
duplicates (the accumulator stays duplicate-free through the per-seed loop,
and the final truncation inherits this). -/
theorem recommend_ids_nodup (r : Recommender) (q : List ℤ)
    (K_use K_mf n_to_recommend ubm mbm : ℕ) :
    (r.recommend_ids q K_use K_mf n_to_recommend ubm mbm).Nodup := by
  unfold Recommender.recommend_ids
  exact (foldl_recommend_step_nodup r K_mf mbm _ [] List.nodup_nil).sublist
    (List.take_sublist _ _)

/-- C5: the per-seed step is an order-preserving set-difference followed by a
truncated append: the kept identifiers are exactly the neighbour-list
identifiers not already in the accumulator, in the neighbour list's relative
order, and the first `K_mf` of them are appended in that order. -/
theorem recommend_step_spec (r : Recommender) (K_mf mbm : ℕ)
    (recs : List ℕ) (item_id : ℕ) :
    r.recommend_step K_mf mbm recs item_id
        = recs ++ (setdiff1d (find_nearest [r.embeds_mf.getD item_id []]
            r.embeds_mf (K_mf * mbm)) recs).take K_mf ∧
    (∀ a, a ∈ setdiff1d (find_nearest [r.embeds_mf.getD item_id []]
            r.embeds_mf (K_mf * mbm)) recs ↔
          a ∈ find_nearest [r.embeds_mf.getD item_id []]
            r.embeds_mf (K_mf * mbm) ∧ a ∉ recs) ∧
    (setdiff1d (find_nearest [r.embeds_mf.getD item_id []]
        r.embeds_mf (K_mf * mbm)) recs).Sublist
      (find_nearest [r.embeds_mf.getD item_id []] r.embeds_mf (K_mf * mbm)) :=
  ⟨rfl, fun _ => mem_setdiff1d, setdiff1d_sublist _ _⟩

/-- C6: every identifier in the seed set belongs to `interacted_items`, and
the interaction filter (and hence the seed set) preserves the relative
nearest-first order of the semantic candidate list (sublist order). -/
theorem seed_ids_spec (r : Recommender) (q : List ℤ) (K_use ubm : ℕ) :
    (∀ s ∈ r.seed_ids q K_use ubm, s ∈ r.interacted_items) ∧
    ((find_nearest [q] r.embeds_use (K_use * ubm)).filter
        (fun i => decide (i ∈ r.interacted_items))).Sublist
      (find_nearest [q] r.embeds_use (K_use * ubm)) ∧
    (r.seed_ids q K_use ubm).Sublist
      (find_nearest [q] r.embeds_use (K_use * ubm)) := by
  refine ⟨?_, List.filter_sublist _, ?_⟩
  · intro s hs
    unfold Recommender.seed_ids at hs
    have hs' := (List.take_sublist _ _).subset hs
    have := List.mem_filter.mp hs'
    exact of_decide_eq_true this.2
  · exact (List.take_sublist _ _).trans (List.filter_sublist _)

/-- C7 (evaluation of the schema-check bug): an interactions table whose
columns are exactly `["item", "interaction"]` lacks the required `"user"`
column, yet the schema check of `preprocess` accepts it; conversely a table
carrying all three required columns plus an extra one is rejected.  Line 45
subtracts the required column set from the loaded columns in the wrong
direction. -/
theorem interactions_schema_check_bug :
    interactions_schema_check ["item", "interaction"] = Except.ok () ∧
    "user" ∉ (["item", "interaction"] : List String) ∧
    interactions_schema_check ["user", "item", "interaction", "note"] =
      Except.error "ColumnNotFoundError" := by
  refine ⟨rfl, by decide, rfl⟩

lemma getD_map_key (q : List ℤ) (y : List (List ℤ)) {i : ℕ} (h : i < y.length) :
    (y.map (fun yr => sqDist q yr)).getD i 0 = sqDist q (y.getD i []) := by
  have h' : i < (y.map (fun yr => sqDist q yr)).length := by simpa using h
  rw [List.getD_eq_getElem _ _ h', List.getD_eq_getElem _ _ h, List.getElem_map]

/-- C3: for a single-row query `q`, `_find_nearest` returns row indices of
`y` sorted by non-decreasing Euclidean distance to `q` (stated both through
the squared distance and through the real square-root distance, which order
identically), every returned index is a valid row index, and when `K` is at
least the number of rows all row indices are returned, fully sorted, with no
error (the returned list is a permutation of `range y.length`). -/
theorem find_nearest_spec (q : List ℤ) (y : List (List ℤ)) (K : ℕ) :
    (∀ i ∈ find_nearest [q] y K, i < y.length) ∧
    (find_nearest [q] y K).Pairwise
      (fun i j => sqDist q (y.getD i []) ≤ sqDist q (y.getD j [])) ∧
    (find_nearest [q] y K).Pairwise
      (fun i j => Real.sqrt (sqDist q (y.getD i []) : ℝ) ≤
        Real.sqrt (sqDist q (y.getD j []) : ℝ)) ∧
    (y.length ≤ K → (find_nearest [q] y K).Perm (List.range y.length)) := by
  have hmem : ∀ i ∈ find_nearest [q] y K, i < y.length := by
    intro i hi
    rw [find_nearest_single] at hi
    have := mem_argsort_lt ((List.take_sublist _ _).subset hi)
    simpa using this
  have hsq : (find_nearest [q] y K).Pairwise
      (fun i j => sqDist q (y.getD i []) ≤ sqDist q (y.getD j [])) := by
    have hp : (find_nearest [q] y K).Pairwise
        (fun i j => (y.map (fun yr => sqDist q yr)).getD i 0 ≤
          (y.map (fun yr => sqDist q yr)).getD j 0) := by
      rw [find_nearest_single]
      exact (argsort_sorted _).sublist (List.take_sublist _ _)
    refine hp.imp_of_mem ?_
    intro a b ha hb hab
    rwa [getD_map_key _ _ (hmem a ha), getD_map_key _ _ (hmem b hb)] at hab
  refine ⟨hmem, hsq, ?_, ?_⟩
  · refine hsq.imp ?_
    intro a b h
    exact Real.sqrt_le_sqrt (by exact_mod_cast h)
  · intro hK
    rw [find_nearest_single]
    rw [List.take_of_length_le (by simpa [argsort_length] using hK)]
    simpa using argsort_perm (y.map (fun yr => sqDist q yr))

/-- Witness for C3 at a concrete input: `K = 3` exceeds the row count 2 of
`y`, and all row indices come back as a permutation of `range 2`. -/
theorem find_nearest_spec_witness :
    (List.length [[(5 : ℤ)], [1]] ≤ 3) ∧
    (find_nearest [[0]] [[(5 : ℤ)], [1]] 3).Perm
      (List.range (List.length [[(5 : ℤ)], [1]])) :=
  ⟨by decide, (find_nearest_spec [0] [[(5 : ℤ)], [1]] 3).2.2.2 (by decide)⟩

/-- C8: if `interacted_items` is empty the seed set is empty and `recommend`
returns the empty list; degenerate shortfalls never raise (the embedded
pipeline is a total function), they only shorten the result. -/
theorem recommend_empty_interacted (r : Recommender) (q : List ℤ)
    (K_use K_mf n_to_recommend ubm mbm : ℕ)
    (h : r.interacted_items = []) :
    r.seed_ids q K_use ubm = [] ∧
    r.recommend q K_use K_mf n_to_recommend ubm mbm = [] := by
  have hseed : r.seed_ids q K_use ubm = [] := by
    unfold Recommender.seed_ids
    rw [h]
    simp
  refine ⟨hseed, ?_⟩
  unfold Recommender.recommend Recommender.recommend_ids
  rw [hseed]
  simp

/-- Witness for C8: a one-item catalog with no interactions yields the empty
recommendation list. -/
theorem recommend_empty_interacted_witness :
    (Recommender.mk [[(1 : ℤ)]] [[(2 : ℤ)]] ["A"] []).interacted_items = [] ∧
    (Recommender.mk [[(1 : ℤ)]] [[(2 : ℤ)]] ["A"] []).recommend [0] 2 5 5 10 10
      = [] :=
  ⟨rfl, (recommend_empty_interacted
    (Recommender.mk [[(1 : ℤ)]] [[(2 : ℤ)]] ["A"] []) [0] 2 5 5 10 10 rfl).2⟩

lemma length_filter_take_mono (l : List ℕ) (p : ℕ → Bool) {a b : ℕ}
    (h : a ≤ b) :
    ((l.take a).filter p).length ≤ ((l.take b).filter p).length := by
  have h1 : l.take a = (l.take b).take a := by
    rw [List.take_take, Nat.min_eq_left h]
  rw [h1]
  exact (List.Sublist.filter p (List.take_sublist _ _)).length_le

/-- C9: holding the query, embeddings and every other parameter fixed,
increasing `use_buffer_multiplier` never decreases the number of seeds
retained after interaction-filtering and truncation at `K_use`. -/
theorem seed_count_monotone (r : Recommender) (q : List ℤ) (K_use : ℕ)
    {m m' : ℕ} (h : m ≤ m') :
    (r.seed_ids q K_use m).length ≤ (r.seed_ids q K_use m').length := by
  unfold Recommender.seed_ids
  rw [find_nearest_single, find_nearest_single]
  simp only [List.length_take]
  exact min_le_min le_rfl
    (length_filter_take_mono _ _ (Nat.mul_le_mul_left _ h))

/-- Witness for C9: a concrete catalog where the multiplier grows from 1 to
2 and the retained-seed count does not decrease. -/
theorem seed_count_monotone_witness :
    (1 : ℕ) ≤ 2 ∧
    ((Recommender.mk [[(0 : ℤ)]] [[(0 : ℤ)], [1], [2]] ["A", "B", "C"]
        [2]).seed_ids [0] 1 1).length ≤
      ((Recommender.mk [[(0 : ℤ)]] [[(0 : ℤ)], [1], [2]] ["A", "B", "C"]
        [2]).seed_ids [0] 1 2).length :=
  ⟨by decide, seed_count_monotone
    (Recommender.mk [[(0 : ℤ)]] [[(0 : ℤ)], [1], [2]] ["A", "B", "C"] [2])
    [0] 1 (by decide)⟩

lemma setdiff1d_nil (l : List ℕ) : setdiff1d l [] = l := by
  simp [setdiff1d]

/-- If index `s` has key `0`, every other valid index has a strictly
positive key, and `s` is a valid index, then `s` heads the argsort. -/
lemma argsort_head_eq_of_unique_min (keys : List ℤ) (s : ℕ)
    (hs : s < keys.length) (hks : keys.getD s 0 = 0)
    (hpos : ∀ j < keys.length, j ≠ s → 0 < keys.getD j 0) :
    (argsort keys).head? = some s := by
  cases hc : argsort keys with
  | nil =>
    exact absurd (hc ▸ mem_argsort_of_lt hs) (List.not_mem_nil s)
  | cons hd tl =>
    have hdmem : hd ∈ argsort keys := by
      rw [hc]; exact List.mem_cons_self _ _
    have hdlt : hd < keys.length := mem_argsort_lt hdmem
    rcases eq_or_ne hd s with he | hne
    · rw [List.head?_cons, he]
    · exfalso
      have hsmem : s ∈ hd :: tl := hc ▸ mem_argsort_of_lt hs
      have hstl : s ∈ tl := by
        cases List.mem_cons.mp hsmem with
        | inl h => exact absurd h.symm hne
        | inr h => exact h
      have hsorted := argsort_sorted keys
      rw [hc] at hsorted
      have hle : keys.getD hd 0 ≤ keys.getD s 0 :=
        List.rel_of_sorted_cons hsorted s hstl
      rw [hks] at hle
      exact absurd (hpos hd hdlt hne) (not_lt.mpr hle)

/-- The per-seed loop only appends to the accumulator, so it preserves the
head of a non-empty accumulator. -/
lemma foldl_recommend_step_head (r : Recommender) (K_mf mbm : ℕ) :
    ∀ (seeds : List ℕ) (a : ℕ) (acc : List ℕ),
      ((seeds.foldl (r.recommend_step K_mf mbm) (a :: acc))).head? = some a
  | [], _, _ => rfl
  | s :: seeds, a, acc => by
    rw [List.foldl_cons]
    have hstep : r.recommend_step K_mf mbm (a :: acc) s
        = a :: (acc ++ (setdiff1d (find_nearest [r.embeds_mf.getD s []]
            r.embeds_mf (K_mf * mbm)) (a :: acc)).take K_mf) := by
      simp [Recommender.recommend_step]
    rw [hstep]
    exact foldl_recommend_step_head r K_mf mbm seeds a _

/-- C10 (implicit): when the seed set is non-empty, `K_mf ≥ 1`,
`mf_buffer_multiplier ≥ 1`, `n_to_recommend ≥ 1`, and no other catalog row
has a collaborative embedding at distance zero from the first seed's row,
the first recommendation is the first seed item's own title: the seed heads
its own collaborative neighbour list and, against the empty accumulator, is
appended first. -/
theorem recommend_head_first_seed (r : Recommender) (q : List ℤ)
    (K_use K_mf n_to_recommend ubm mbm : ℕ) (s : ℕ) (tl : List ℕ)
    (hseeds : r.seed_ids q K_use ubm = s :: tl)
    (hK : 1 ≤ K_mf) (hm : 1 ≤ mbm) (hn : 1 ≤ n_to_recommend)
    (hs : s < r.embeds_mf.length)
    (huniq : ∀ j < r.embeds_mf.length, j ≠ s →
      0 < sqDist (r.embeds_mf.getD s []) (r.embeds_mf.getD j [])) :
    (r.recommend q K_use K_mf n_to_recommend ubm mbm).head? =
      some (r.items.getD s "") := by
  set keys := r.embeds_mf.map (fun yr => sqDist (r.embeds_mf.getD s []) yr)
    with hkeys
  have hkl : keys.length = r.embeds_mf.length := by simp [hkeys]
  have hks : keys.getD s 0 = 0 := by
    rw [hkeys, getD_map_key _ _ hs, sqDist_self]
  have hpos : ∀ j < keys.length, j ≠ s → 0 < keys.getD j 0 := by
    intro j hj hne
    rw [hkeys, getD_map_key _ _ (hkl ▸ hj)]
    exact huniq j (hkl ▸ hj) hne
  have hhead := argsort_head_eq_of_unique_min keys s (hkl ▸ hs) hks hpos
  obtain ⟨rest, hrest⟩ : ∃ rest, argsort keys = s :: rest := by
    cases hc : argsort keys with
    | nil => rw [hc] at hhead; exact absurd hhead (by simp)
    | cons hd tl2 =>
      rw [hc] at hhead
      simp only [List.head?_cons, Option.some.injEq] at hhead
      exact ⟨tl2, by rw [hhead]⟩
  obtain ⟨Km, hKm⟩ : ∃ Km, K_mf * mbm = Km + 1 :=
    ⟨K_mf * mbm - 1, by
      have : 1 ≤ K_mf * mbm := Nat.one_le_iff_ne_zero.mpr
        (Nat.mul_ne_zero (by omega) (by omega))
      omega⟩
  have hmf2 : find_nearest [r.embeds_mf.getD s []] r.embeds_mf (K_mf * mbm)
      = s :: rest.take Km := by
    rw [find_nearest_single, ← hkeys, hrest, hKm, List.take_succ_cons]
  obtain ⟨Kk, hKk⟩ : ∃ Kk, K_mf = Kk + 1 := ⟨K_mf - 1, by omega⟩
  have hstep : r.recommend_step K_mf mbm [] s
      = s :: (rest.take Km).take Kk := by
    show [] ++ (setdiff1d (find_nearest [r.embeds_mf.getD s []] r.embeds_mf
        (K_mf * mbm)) []).take K_mf = s :: (rest.take Km).take Kk
    rw [hmf2, setdiff1d_nil, List.nil_append, hKk, List.take_succ_cons]
  have hfold : ((s :: tl).foldl (r.recommend_step K_mf mbm) []).head?
      = some s := by
    rw [List.foldl_cons, hstep]
    exact foldl_recommend_step_head r K_mf mbm tl s _
  obtain ⟨u, hu⟩ : ∃ u, (s :: tl).foldl (r.recommend_step K_mf mbm) []
      = s :: u := by
    cases hc : (s :: tl).foldl (r.recommend_step K_mf mbm) [] with
    | nil => rw [hc] at hfold; exact absurd hfold (by simp)
    | cons hd tl2 =>
      rw [hc] at hfold
      simp only [List.head?_cons, Option.some.injEq] at hfold
      exact ⟨tl2, by rw [hfold]⟩
  obtain ⟨n', hn'⟩ : ∃ n', n_to_recommend = n' + 1 :=
    ⟨n_to_recommend - 1, by omega⟩
  unfold Recommender.recommend Recommender.recommend_ids
  rw [hseeds, hu, hn', List.take_succ_cons, List.map_cons, List.head?_cons]

/-- Witness for C10: a two-item catalog where the query ranks item `0`
first, both items are interacted, and the collaborative row of item `1` is
distinct from item `0`'s; the first recommendation is item `0`'s title. -/
theorem recommend_head_first_seed_witness :
    (Recommender.mk [[(0 : ℤ)], [5]] [[(0 : ℤ)], [10]] ["A", "B"]
        [0, 1]).seed_ids [0] 1 2 = 0 :: [] ∧
    ((Recommender.mk [[(0 : ℤ)], [5]] [[(0 : ℤ)], [10]] ["A", "B"]
        [0, 1]).recommend [0] 1 1 1 2 1).head? = some "A" :=
  ⟨by decide, by
    have h := recommend_head_first_seed
      (Recommender.mk [[(0 : ℤ)], [5]] [[(0 : ℤ)], [10]] ["A", "B"] [0, 1])
      [0] 1 1 1 2 1 0 [] (by decide) (by decide) (by decide) (by decide)
      (by decide) (by decide)
    exact h⟩

end QRecsys
